import Mathlib

/-!
A verification development for a small contact-book program (`task.py`).

The core embedded here:
* the validated fields `Name`, `Phone`, `Birthday` (`Field` subclasses);
* `Record` (one name, a list of phones, an optional birthday);
* `AddressBook` (a `dict` from name strings to records, insertion-ordered);
* `AddressBook.get_upcoming_birthdays`, the 7-day birthday scheduler with
  the weekend shift.

Dates are modelled on the proleptic Gregorian calendar exactly as Python's
`datetime.date` does (ordinal day counting from 01.01.0001 = day 1,
`weekday()` with Monday = 0). Fallible constructors (`raise ValueError`)
become `Except String` values. Character classes are modelled over ASCII:
the source's `str.isdigit` and the `\d` of `strptime`'s regex additionally
admit some non-ASCII Unicode digit characters, which are outside this model.
-/

deriving instance DecidableEq for Except

namespace ContactBook

/-- Leap-year rule of the proleptic Gregorian calendar, as in Python's
`datetime._is_leap`: divisible by 4 and not by 100, or divisible by 400. -/
def isLeapYear (y : Nat) : Bool :=
  (y % 4 == 0 && y % 100 != 0) || (y % 400 == 0)

/-- Days in a month, as in Python's `datetime._days_in_month`
(`_DAYS_IN_MONTH` table plus the February leap adjustment). -/
def daysInMonth (y m : Nat) : Nat :=
  if m == 2 then (if isLeapYear y then 29 else 28)
  else if m == 4 || m == 6 || m == 9 || m == 11 then 30
  else 31

/-- A calendar date: the `(year, month, day)` triple of `datetime.date`. -/
structure Date where
  year : Nat
  month : Nat
  day : Nat
deriving DecidableEq, Repr

/-- The month/day part of the `datetime.date` constructor check:
month in 1..12, day in 1..days-in-month, year positive. -/
def Date.calendarValid (d : Date) : Prop :=
  1 ≤ d.year ∧ 1 ≤ d.month ∧ d.month ≤ 12 ∧ 1 ≤ d.day ∧
    d.day ≤ daysInMonth d.year d.month

instance (d : Date) : Decidable d.calendarValid := by
  unfold Date.calendarValid; infer_instance

/-- The full `datetime.date` constructor check: `MINYEAR = 1 ≤ year ≤
MAXYEAR = 9999`, plus the calendar validity of month and day. -/
def dateCtorOk (d : Date) : Prop :=
  d.calendarValid ∧ d.year ≤ 9999

instance (d : Date) : Decidable (dateCtorOk d) := by
  unfold dateCtorOk; infer_instance

/-- `date.replace(year=y)`: rebuild the date with a new year; the
constructor check reruns and a `ValueError` is raised when it fails
(e.g. 29 February moved to a non-leap year). -/
def dateReplaceYear (d : Date) (y : Nat) : Except String Date :=
  if dateCtorOk ⟨y, d.month, d.day⟩ then Except.ok ⟨y, d.month, d.day⟩
  else Except.error "day is out of range for month"

/-- Days in the years before year `y`, as in Python's
`datetime._days_before_year`. -/
def daysBeforeYear (y : Nat) : Nat :=
  365 * (y - 1) + (y - 1) / 4 - (y - 1) / 100 + (y - 1) / 400

/-- Days in the months of year `y` strictly before month `m`, as in
Python's `datetime._days_before_month` (`_DAYS_BEFORE_MONTH` table plus
the leap adjustment for months after February). -/
def daysBeforeMonth (y : Nat) (m : Nat) : Nat :=
  let l : Nat := if isLeapYear y then 1 else 0
  match m with
  | 0 => 0
  | 1 => 0
  | 2 => 31
  | 3 => 59 + l
  | 4 => 90 + l
  | 5 => 120 + l
  | 6 => 151 + l
  | 7 => 181 + l
  | 8 => 212 + l
  | 9 => 243 + l
  | 10 => 273 + l
  | 11 => 304 + l
  | _ => 334 + l

/-- `date.toordinal()`: day count with 01.01.0001 as day 1
(Python's `_ymd2ord`). -/
def Date.toOrdinal (d : Date) : Nat :=
  daysBeforeYear d.year + daysBeforeMonth d.year d.month + d.day

/-- `date.weekday()`: Monday = 0 .. Sunday = 6, computed from the ordinal
exactly as CPython does. -/
def Date.weekday (d : Date) : Nat :=
  (d.toOrdinal + 6) % 7

/-- `date.__lt__`: lexicographic comparison of the
`(year, month, day)` triples. -/
def Date.lt (a b : Date) : Prop :=
  a.year < b.year ∨
    (a.year = b.year ∧
      (a.month < b.month ∨ (a.month = b.month ∧ a.day < b.day)))

instance (a b : Date) : Decidable (a.lt b) := by
  unfold Date.lt; infer_instance

/-- The calendar successor of a date (used to model `+ timedelta(days=k)`,
which CPython computes through the ordinal). -/
def Date.nextDay (d : Date) : Date :=
  if d.day < daysInMonth d.year d.month then ⟨d.year, d.month, d.day + 1⟩
  else if d.month < 12 then ⟨d.year, d.month + 1, 1⟩
  else ⟨d.year + 1, 1, 1⟩

/-- `date + timedelta(days=k)` for a natural `k`: `k` calendar successors. -/
def Date.addDays (d : Date) : Nat → Date
  | 0 => d
  | k + 1 => (Date.addDays d k).nextDay

/-- Numeric value of a list of ASCII digit characters (the `int()` applied
by `_strptime` to each matched group). -/
def natOfDigits (cs : List Char) : Nat :=
  cs.foldl (fun a c => 10 * a + (c.toNat - 48)) 0

/-- The regex match of `datetime.strptime(s, '%d.%m.%Y')`, which compiles
to the anchored pattern `(3[01]|[12]\d|0[1-9]|[1-9])\.(1[0-2]|0[1-9]|[1-9])\.(\d\d\d\d)`
followed by the requirement that no input remains unconsumed.
Because the field separators `.` are not digits, that match is equivalent
to this deterministic scan: each of the first two fields is a maximal
nonempty run of at most two digits whose value is in range (1..31 for the
day, 1..12 for the month), the year is a run of exactly four digits, and
the string ends there. -/
def parseDMY (cs : List Char) : Option (Nat × Nat × Nat) :=
  let ds := cs.takeWhile Char.isDigit
  let r1 := cs.dropWhile Char.isDigit
  match r1 with
  | '.' :: r2 =>
    let ms := r2.takeWhile Char.isDigit
    let r3 := r2.dropWhile Char.isDigit
    match r3 with
    | '.' :: r4 =>
      let ys := r4.takeWhile Char.isDigit
      let r5 := r4.dropWhile Char.isDigit
      if 1 ≤ ds.length ∧ ds.length ≤ 2 ∧
         1 ≤ natOfDigits ds ∧ natOfDigits ds ≤ 31 ∧
         1 ≤ ms.length ∧ ms.length ≤ 2 ∧
         1 ≤ natOfDigits ms ∧ natOfDigits ms ≤ 12 ∧
         ys.length = 4 ∧ r5 = [] then
        some (natOfDigits ds, natOfDigits ms, natOfDigits ys)
      else none
    | _ => none
  | _ => none

/-- `datetime.strptime(s, '%d.%m.%Y').date()`: the regex match above,
then the `datetime` constructor check on the extracted numbers; `none`
models the `ValueError` raised on either failure. -/
def strptimeDMY (s : String) : Option Date :=
  match parseDMY s.data with
  | some (d, m, y) =>
    if dateCtorOk ⟨y, m, d⟩ then some ⟨y, m, d⟩ else none
  | none => none

/-- Two-character zero-padded decimal rendering (`%d` and `%m` of
`strftime`, for values below 100). -/
def twoDigits (n : Nat) : List Char :=
  [Nat.digitChar (n / 10 % 10), Nat.digitChar (n % 10)]

/-- Four-character zero-padded decimal rendering (`%Y` of `strftime`,
for values below 10000). -/
def fourDigits (n : Nat) : List Char :=
  [Nat.digitChar (n / 1000 % 10), Nat.digitChar (n / 100 % 10),
   Nat.digitChar (n / 10 % 10), Nat.digitChar (n % 10)]

/-- `date.strftime("%d.%m.%Y")`. -/
def formatDMY (d : Date) : String :=
  ⟨twoDigits d.day ++ ('.' :: (twoDigits d.month ++ ('.' :: fourDigits d.year)))⟩

/-- The `Name` field: `class Name(Field): pass` — stores any value,
no validation whatsoever. -/
structure Name where
  value : String
deriving DecidableEq, Repr

/-- The `Phone` field: holds the raw string that passed validation. -/
structure Phone where
  value : String
deriving DecidableEq, Repr

/-- The `Birthday` field: holds the raw string that passed validation
(the source stores the string, not the parsed date). -/
structure Birthday where
  value : String
deriving DecidableEq, Repr

/-- Python's `str.isdigit()` over ASCII: nonempty and every character a
decimal digit. -/
def strIsdigit (s : String) : Bool :=
  !s.data.isEmpty && s.data.all Char.isDigit

/-- `Phone.__init__`: requires `value.isdigit() and len(value) == 10`,
otherwise raises `ValueError("Phone number must be 10 digits.")`. -/
def Phone.init (value : String) : Except String Phone :=
  if strIsdigit value && value.length == 10 then Except.ok ⟨value⟩
  else Except.error "Phone number must be 10 digits."

/-- `Birthday.__init__`: `datetime.strptime(value, '%d.%m.%Y')` must
succeed; on its `ValueError` the constructor raises
`ValueError("Invalid date format. Use DD.MM.YYYY")`. The raw string is
stored unchanged. -/
def Birthday.init (value : String) : Except String Birthday :=
  match strptimeDMY value with
  | some _ => Except.ok ⟨value⟩
  | none => Except.error "Invalid date format. Use DD.MM.YYYY"

/-- A contact record: `Record.__init__` fields `name`, `phones`,
`birthday`. -/
structure Record where
  name : Name
  phones : List Phone
  birthday : Option Birthday
deriving DecidableEq, Repr

/-- `Record.__init__(name)`: wraps the argument in `Name` (which performs
no validation), starts with no phones and no birthday. There is no
failure path in the source. -/
def Record.create (name : String) : Record :=
  ⟨⟨name⟩, [], none⟩

/-- `Record.add_phone`: `self.phones.append(Phone(phone_number))` — the
`Phone` constructor runs first, so on its `ValueError` nothing has been
appended and the record is unchanged. -/
def Record.add_phone (r : Record) (phone_number : String) :
    Except String Record :=
  match Phone.init phone_number with
  | Except.ok p => Except.ok ⟨r.name, r.phones ++ [p], r.birthday⟩
  | Except.error e => Except.error e

/-- `Record.add_birthday`: `self.birthday = Birthday(birthday_str)`. -/
def Record.add_birthday (r : Record) (birthday_str : String) :
    Except String Record :=
  match Birthday.init birthday_str with
  | Except.ok b => Except.ok ⟨r.name, r.phones, some b⟩
  | Except.error e => Except.error e

/-- The `AddressBook` store: its `UserDict` data, an insertion-ordered
association list from name strings to records. -/
structure AddressBook where
  data : List (String × Record)
deriving DecidableEq, Repr

/-- Python `dict` assignment `d[k] = v`: replace in place when the key is
present (keeping its position), append otherwise. -/
def dictSet (d : List (String × Record)) (k : String) (v : Record) :
    List (String × Record) :=
  if d.any (fun p => p.1 == k) then
    d.map (fun p => if p.1 == k then (k, v) else p)
  else d ++ [(k, v)]

/-- Python `dict.get(k)`: the value of the first (only) matching key,
`None` when absent. -/
def dictGet (d : List (String × Record)) (k : String) : Option Record :=
  match d.find? (fun p => p.1 == k) with
  | some p => some p.2
  | none => none

/-- `AddressBook.add_record`: `self.data[record.name.value] = record`. -/
def AddressBook.add_record (b : AddressBook) (record : Record) :
    AddressBook :=
  ⟨dictSet b.data record.name.value record⟩

/-- `AddressBook.find`: `self.data.get(name)`. -/
def AddressBook.find (b : AddressBook) (name : String) : Option Record :=
  dictGet b.data name

/-- One emitted `{"name": ..., "congratulation_date": ...}` dict. -/
structure Entry where
  name : String
  congratulation_date : String
deriving DecidableEq, Repr

/-- The body of the `get_upcoming_birthdays` loop for one record:
skip records without a birthday; re-parse the stored string; take this
year's occurrence via `replace(year=today.year)`; roll strictly-past
occurrences to `today.year + 1`; include when the day delta is in
`[0, 7)`; shift Saturday/Sunday occurrences forward by
`7 - weekday` days before formatting. `Except.error` models the
`ValueError`s that `strptime` or `replace` can raise out of the loop. -/
def upcomingForRecord (today : Date) (record : Record) :
    Except String (Option Entry) :=
  match record.birthday with
  | none => Except.ok none
  | some bd =>
    match strptimeDMY bd.value with
    | none => Except.error "time data does not match format %d.%m.%Y"
    | some b_date =>
      match dateReplaceYear b_date today.year with
      | Except.error e => Except.error e
      | Except.ok b0 =>
        match (if b0.lt today then dateReplaceYear b0 (today.year + 1)
               else Except.ok b0) with
        | Except.error e => Except.error e
        | Except.ok b1 =>
          if 0 ≤ (b1.toOrdinal : Int) - (today.toOrdinal : Int) ∧
             (b1.toOrdinal : Int) - (today.toOrdinal : Int) < 7 then
            Except.ok (some ⟨record.name.value,
              formatDMY (if 5 ≤ b1.weekday
                         then b1.addDays (7 - b1.weekday) else b1)⟩)
          else Except.ok none

/-- The `get_upcoming_birthdays` loop over the stored records, collecting
the emitted entries in iteration order; the first raised `ValueError`
aborts the whole call. -/
def upcomingLoop (today : Date) : List Record → Except String (List Entry)
  | [] => Except.ok []
  | r :: rs =>
    match upcomingForRecord today r with
    | Except.error e => Except.error e
    | Except.ok none => upcomingLoop today rs
    | Except.ok (some e) =>
      match upcomingLoop today rs with
      | Except.error msg => Except.error msg
      | Except.ok l => Except.ok (e :: l)

/-- `AddressBook.get_upcoming_birthdays`, with the reference date `today`
(obtained in the source from `date.today()`) made an explicit
parameter. Iterates `self.data.values()` in insertion order. -/
def AddressBook.get_upcoming_birthdays (b : AddressBook) (today : Date) :
    Except String (List Entry) :=
  upcomingLoop today (b.data.map (fun p => p.2))

/-- State-threading rendition of the same loop: each iteration hands back
the record it visited, so that the store the caller observes afterwards
is rebuilt from what the loop returned. The source performs no field
assignment on any record and no assignment on the dict, so every record
is handed back untouched. -/
def upcomingLoopSt (today : Date) :
    List (String × Record) →
      Except String (List Entry) × List (String × Record)
  | [] => (Except.ok [], [])
  | (k, r) :: rest =>
    match upcomingForRecord today r with
    | Except.error e => (Except.error e, (k, r) :: rest)
    | Except.ok none =>
      let res := upcomingLoopSt today rest
      (res.1, (k, r) :: res.2)
    | Except.ok (some e) =>
      let res := upcomingLoopSt today rest
      (match res.1 with
       | Except.error msg => Except.error msg
       | Except.ok l => Except.ok (e :: l), (k, r) :: res.2)

/-- `get_upcoming_birthdays` observed together with the store it leaves
behind. -/
def AddressBook.get_upcoming_birthdays_st (b : AddressBook)
    (today : Date) : Except String (List Entry) × AddressBook :=
  ((upcomingLoopSt today b.data).1, ⟨(upcomingLoopSt today b.data).2⟩)

/-- Modelled from the spec: the exact textual pattern the spec ascribes
to `Birthday` — "two-digit day, `.`, two-digit month, `.`, four-digit
year" — together with its real-calendar-date requirement. Used only to
compare the spec's pattern with the source's actual parser. -/
def specBirthdayPattern (s : String) : Bool :=
  match s.data with
  | [d1, d2, c1, m1, m2, c2, y1, y2, y3, y4] =>
    d1.isDigit && d2.isDigit && c1 == '.' &&
    m1.isDigit && m2.isDigit && c2 == '.' &&
    y1.isDigit && y2.isDigit && y3.isDigit && y4.isDigit &&
    decide (dateCtorOk
      ⟨natOfDigits [y1, y2, y3, y4], natOfDigits [m1, m2],
       natOfDigits [d1, d2]⟩)
  | _ => false

/-- The pattern that `strptime('%d.%m.%Y')` actually accepts, stated
independently of the scanner: a one-or-two-digit day, a dot, a
one-or-two-digit month, a dot, an exactly-four-digit year and nothing
else, such that the three numbers form a constructible calendar date
(which forces day ≥ 1, day within the month, month in 1..12,
year in 1..9999). -/
def lenientBirthdayPattern (s : String) : Prop :=
  ∃ ds ms ys : List Char,
    s.data = ds ++ ('.' :: (ms ++ ('.' :: ys))) ∧
    (∀ c ∈ ds, c.isDigit = true) ∧ 1 ≤ ds.length ∧ ds.length ≤ 2 ∧
    (∀ c ∈ ms, c.isDigit = true) ∧ 1 ≤ ms.length ∧ ms.length ≤ 2 ∧
    (∀ c ∈ ys, c.isDigit = true) ∧ ys.length = 4 ∧
    dateCtorOk ⟨natOfDigits ys, natOfDigits ms, natOfDigits ds⟩

/-! ### Calendar arithmetic lemmas -/

theorem daysInMonth_pos (y m : Nat) : 1 ≤ daysInMonth y m := by
  unfold daysInMonth
  split
  · split <;> omega
  · split <;> omega

theorem daysInMonth_le (y m : Nat) : daysInMonth y m ≤ 31 := by
  unfold daysInMonth
  split
  · split <;> omega
  · split <;> omega

set_option maxHeartbeats 1000000 in
theorem daysBeforeYear_succ (y : Nat) (hy : 1 ≤ y) :
    daysBeforeYear (y + 1) =
      daysBeforeYear y + (if isLeapYear y then 366 else 365) := by
  unfold daysBeforeYear isLeapYear
  split
  · rename_i h
    simp only [Bool.or_eq_true, Bool.and_eq_true, beq_iff_eq, bne_iff_ne,
      ne_eq] at h
    rcases h with ⟨h4, h100⟩ | h400 <;> omega
  · rename_i h
    simp only [Bool.or_eq_true, Bool.and_eq_true, beq_iff_eq, bne_iff_ne,
      ne_eq, not_or, not_and, not_not] at h
    obtain ⟨h1, h2⟩ := h
    by_cases h4 : y % 4 = 0
    · have h100 : y % 100 = 0 := h1 h4
      omega
    · omega

set_option maxHeartbeats 1000000 in
theorem daysBeforeMonth_succ (y m : Nat) (h1 : 1 ≤ m) (h2 : m ≤ 11) :
    daysBeforeMonth y (m + 1) = daysBeforeMonth y m + daysInMonth y m := by
  interval_cases m <;>
    by_cases h : isLeapYear y <;>
      simp [daysBeforeMonth, daysInMonth, h]

theorem daysBeforeMonth_twelve (y : Nat) :
    daysBeforeMonth y 12 + daysInMonth y 12 =
      if isLeapYear y then 366 else 365 := by
  by_cases h : isLeapYear y <;> simp [daysBeforeMonth, daysInMonth, h]

theorem toOrdinal_nextDay (d : Date) (h : d.calendarValid) :
    d.nextDay.toOrdinal = d.toOrdinal + 1 := by
  obtain ⟨hy, hm1, hm2, hd1, hd2⟩ := h
  unfold Date.nextDay
  by_cases hlt : d.day < daysInMonth d.year d.month
  · rw [if_pos hlt]
    simp only [Date.toOrdinal]
    omega
  · rw [if_neg hlt]
    have hday : d.day = daysInMonth d.year d.month := by omega
    by_cases hm : d.month < 12
    · rw [if_pos hm]
      simp only [Date.toOrdinal]
      have hs := daysBeforeMonth_succ d.year d.month hm1 (by omega)
      omega
    · rw [if_neg hm]
      have hm12 : d.month = 12 := by omega
      simp only [Date.toOrdinal]
      have hsy := daysBeforeYear_succ d.year hy
      have ht := daysBeforeMonth_twelve d.year
      have hb1 : daysBeforeMonth (d.year + 1) 1 = 0 := by
        simp [daysBeforeMonth]
      rw [hm12] at hday ⊢
      by_cases hl : isLeapYear d.year <;> simp [hl] at hsy ht <;> omega

theorem calendarValid_nextDay (d : Date) (h : d.calendarValid) :
    d.nextDay.calendarValid := by
  obtain ⟨hy, hm1, hm2, hd1, hd2⟩ := h
  unfold Date.nextDay
  by_cases hlt : d.day < daysInMonth d.year d.month
  · rw [if_pos hlt]
    simp only [Date.calendarValid]
    omega
  · rw [if_neg hlt]
    by_cases hm : d.month < 12
    · rw [if_pos hm]
      simp only [Date.calendarValid]
      have := daysInMonth_pos d.year (d.month + 1)
      omega
    · rw [if_neg hm]
      simp only [Date.calendarValid]
      have := daysInMonth_pos (d.year + 1) 1
      omega

theorem calendarValid_addDays (d : Date) (h : d.calendarValid) (k : Nat) :
    (d.addDays k).calendarValid := by
  induction k with
  | zero => exact h
  | succ k ih => exact calendarValid_nextDay _ ih

theorem toOrdinal_addDays (d : Date) (h : d.calendarValid) (k : Nat) :
    (d.addDays k).toOrdinal = d.toOrdinal + k := by
  induction k with
  | zero => rfl
  | succ k ih =>
    have := toOrdinal_nextDay (d.addDays k) (calendarValid_addDays d h k)
    simp only [Date.addDays]
    omega

theorem weekday_lt_seven (d : Date) : d.weekday < 7 := by
  unfold Date.weekday
  omega

theorem weekday_addDays (d : Date) (h : d.calendarValid) (k : Nat) :
    (d.addDays k).weekday = (d.weekday + k) % 7 := by
  unfold Date.weekday
  rw [toOrdinal_addDays d h k]
  omega

theorem nextDay_year_cases (d : Date) :
    d.nextDay.year = d.year ∨ d.nextDay.year = d.year + 1 := by
  unfold Date.nextDay
  split
  · exact Or.inl rfl
  · split
    · exact Or.inl rfl
    · exact Or.inr rfl

theorem nextDay_year_succ_inv (d : Date) (h : d.calendarValid)
    (hy : d.nextDay.year = d.year + 1) : d.month = 12 ∧ d.day = 31 := by
  obtain ⟨h1, hm1, hm2, hd1, hd2⟩ := h
  unfold Date.nextDay at hy
  by_cases hlt : d.day < daysInMonth d.year d.month
  · rw [if_pos hlt] at hy
    simp at hy
  · rw [if_neg hlt] at hy
    by_cases hm : d.month < 12
    · rw [if_pos hm] at hy
      simp at hy
    · have hm12 : d.month = 12 := by omega
      rw [hm12] at hlt hd2
      have h31 : daysInMonth d.year 12 = 31 := by simp [daysInMonth]
      rw [h31] at hlt hd2
      exact ⟨hm12, by omega⟩

theorem nextDay_eq_dec31 (d : Date) (h : d.calendarValid) (y : Nat)
    (hy : d.nextDay = ⟨y, 12, 31⟩) : d = ⟨y, 12, 30⟩ := by
  obtain ⟨h1, hm1, hm2, hd1, hd2⟩ := h
  unfold Date.nextDay at hy
  by_cases hlt : d.day < daysInMonth d.year d.month
  · rw [if_pos hlt] at hy
    simp only [Date.mk.injEq] at hy
    obtain ⟨e1, e2, e3⟩ := hy
    cases d
    simp_all
  · rw [if_neg hlt] at hy
    by_cases hm : d.month < 12
    · rw [if_pos hm] at hy
      simp only [Date.mk.injEq] at hy
      omega
    · rw [if_neg hm] at hy
      simp only [Date.mk.injEq] at hy
      omega

theorem weekday_dec31_9999 : Date.weekday ⟨9999, 12, 31⟩ = 4 := by decide

theorem weekday_dec30_9999 : Date.weekday ⟨9999, 12, 30⟩ = 3 := by decide

/-- A valid date other than 31.12.9999 keeps its year at most 9999 after
one calendar successor step. -/
theorem nextDay_year_le (d : Date) (h : d.calendarValid)
    (h9 : d.year ≤ 9999) (hne : d ≠ ⟨9999, 12, 31⟩) :
    d.nextDay.year ≤ 9999 := by
  rcases nextDay_year_cases d with he | he
  · omega
  · have hinv := nextDay_year_succ_inv d h he
    by_cases hy : d.year = 9999
    · exact absurd (by cases d; simp_all) hne
    · omega

/-- The latest representable date, 31.12.9999, is a Friday and 30.12.9999
a Thursday, so the weekend shift never moves a date past year 9999. -/
theorem shift_year_le (d : Date) (h : d.calendarValid) (h9 : d.year ≤ 9999)
    (hw : 5 ≤ d.weekday) : (d.addDays (7 - d.weekday)).year ≤ 9999 := by
  have hw7 : d.weekday < 7 := weekday_lt_seven d
  have hne31 : d ≠ ⟨9999, 12, 31⟩ := by
    intro he
    rw [he, weekday_dec31_9999] at hw
    omega
  have hcase : d.weekday = 5 ∨ d.weekday = 6 := by omega
  rcases hcase with h5 | h6
  · -- Saturday: add two days
    rw [h5]
    show ((d.addDays 2).year ≤ 9999)
    have e2 : d.addDays 2 = d.nextDay.nextDay := rfl
    rw [e2]
    have hv1 : d.nextDay.calendarValid := calendarValid_nextDay d h
    have hy1 : d.nextDay.year ≤ 9999 := nextDay_year_le d h h9 hne31
    refine nextDay_year_le d.nextDay hv1 hy1 ?_
    intro hnd
    have hd30 := nextDay_eq_dec31 d h 9999 hnd
    rw [hd30, weekday_dec30_9999] at h5
    omega
  · -- Sunday: add one day
    rw [h6]
    show ((d.addDays 1).year ≤ 9999)
    have e1 : d.addDays 1 = d.nextDay := rfl
    rw [e1]
    exact nextDay_year_le d h h9 hne31

/-! ### Digit rendering and scanning lemmas -/

theorem digitChar_isDigit (k : Nat) (h : k < 10) :
    (Nat.digitChar k).isDigit = true := by
  interval_cases k <;> decide

theorem toNat_digitChar (k : Nat) (h : k < 10) :
    (Nat.digitChar k).toNat = 48 + k := by
  interval_cases k <;> decide

theorem natOfDigits_twoDigits (n : Nat) (h : n < 100) :
    natOfDigits (twoDigits n) = n := by
  unfold natOfDigits twoDigits
  simp only [List.foldl]
  rw [toNat_digitChar (n / 10 % 10) (by omega),
    toNat_digitChar (n % 10) (by omega)]
  omega

theorem natOfDigits_fourDigits (n : Nat) (h : n < 10000) :
    natOfDigits (fourDigits n) = n := by
  unfold natOfDigits fourDigits
  simp only [List.foldl]
  rw [toNat_digitChar (n / 1000 % 10) (by omega),
    toNat_digitChar (n / 100 % 10) (by omega),
    toNat_digitChar (n / 10 % 10) (by omega),
    toNat_digitChar (n % 10) (by omega)]
  omega

theorem twoDigits_all_digit (n : Nat) :
    ∀ c ∈ twoDigits n, Char.isDigit c = true := by
  intro c hc
  unfold twoDigits at hc
  rcases List.mem_cons.mp hc with he | hc2
  · rw [he]; exact digitChar_isDigit _ (by omega)
  · rcases List.mem_cons.mp hc2 with he | hc3
    · rw [he]; exact digitChar_isDigit _ (by omega)
    · simp at hc3

theorem fourDigits_all_digit (n : Nat) :
    ∀ c ∈ fourDigits n, Char.isDigit c = true := by
  intro c hc
  unfold fourDigits at hc
  rcases List.mem_cons.mp hc with he | hc2
  · rw [he]; exact digitChar_isDigit _ (by omega)
  · rcases List.mem_cons.mp hc2 with he | hc3
    · rw [he]; exact digitChar_isDigit _ (by omega)
    · rcases List.mem_cons.mp hc3 with he | hc4
      · rw [he]; exact digitChar_isDigit _ (by omega)
      · rcases List.mem_cons.mp hc4 with he | hc5
        · rw [he]; exact digitChar_isDigit _ (by omega)
        · simp at hc5

theorem takeWhile_all {p : Char → Bool} :
    ∀ l : List Char, (∀ c ∈ l, p c = true) →
      l.takeWhile p = l ∧ l.dropWhile p = [] := by
  intro l
  induction l with
  | nil => intro _; exact ⟨rfl, rfl⟩
  | cons c cs ih =>
    intro h
    have hc : p c = true := h c (List.mem_cons_self c cs)
    have ihr := ih (fun x hx => h x (List.mem_cons_of_mem c hx))
    refine ⟨?_, ?_⟩
    · simp [List.takeWhile_cons, hc, ihr.1]
    · simp [List.dropWhile_cons, hc, ihr.2]

theorem takeWhile_append_stop {p : Char → Bool} :
    ∀ (l1 : List Char) (x : Char) (l2 : List Char),
      (∀ c ∈ l1, p c = true) → p x = false →
      (l1 ++ x :: l2).takeWhile p = l1 ∧
        (l1 ++ x :: l2).dropWhile p = x :: l2 := by
  intro l1
  induction l1 with
  | nil =>
    intro x l2 _ hx
    refine ⟨?_, ?_⟩
    · simp [List.takeWhile_cons, hx]
    · simp [List.dropWhile_cons, hx]
  | cons c cs ih =>
    intro x l2 h hx
    have hc : p c = true := h c (List.mem_cons_self c cs)
    have ihr := ih x l2 (fun a ha => h a (List.mem_cons_of_mem c ha)) hx
    refine ⟨?_, ?_⟩
    · simp [List.takeWhile_cons, hc, ihr.1]
    · simp [List.dropWhile_cons, hc, ihr.2]

theorem mem_takeWhile_digit {p : Char → Bool} :
    ∀ (l : List Char) (c : Char), c ∈ l.takeWhile p → p c = true := by
  intro l
  induction l with
  | nil => intro c h; simp [List.takeWhile] at h
  | cons a as ih =>
    intro c h
    rw [List.takeWhile_cons] at h
    by_cases ha : p a
    · rw [if_pos ha] at h
      rcases List.mem_cons.mp h with he | hm
      · rw [he]; exact ha
      · exact ih c hm
    · rw [if_neg ha] at h
      simp at h

theorem parseDMY_format (dd dm dy : Nat) (h1 : 1 ≤ dd) (h2 : dd ≤ 31)
    (h3 : 1 ≤ dm) (h4 : dm ≤ 12) (h5 : dy ≤ 9999) :
    parseDMY (twoDigits dd ++ ('.' :: (twoDigits dm ++ ('.' :: fourDigits dy))))
      = some (dd, dm, dy) := by
  have hdot : Char.isDigit '.' = false := by decide
  have s1 := takeWhile_append_stop (twoDigits dd) '.'
    (twoDigits dm ++ ('.' :: fourDigits dy)) (twoDigits_all_digit dd) hdot
  have s2 := takeWhile_append_stop (twoDigits dm) '.' (fourDigits dy)
    (twoDigits_all_digit dm) hdot
  have s3 := takeWhile_all (fourDigits dy) (fourDigits_all_digit dy)
  have v1 : natOfDigits (twoDigits dd) = dd := natOfDigits_twoDigits dd (by omega)
  have v2 : natOfDigits (twoDigits dm) = dm := natOfDigits_twoDigits dm (by omega)
  have v3 : natOfDigits (fourDigits dy) = dy := natOfDigits_fourDigits dy (by omega)
  simp only [parseDMY]
  rw [s1.1, s1.2]
  simp only []
  rw [s2.1, s2.2]
  simp only []
  rw [s3.1, s3.2]
  rw [if_pos]
  · rw [v1, v2, v3]
  · refine ⟨?_, ?_, ?_, ?_, ?_, ?_, ?_, ?_, ?_, rfl⟩
    · simp [twoDigits]
    · simp [twoDigits]
    · rw [v1]; omega
    · rw [v1]; omega
    · simp [twoDigits]
    · simp [twoDigits]
    · rw [v2]; omega
    · rw [v2]; omega
    · simp [fourDigits]

/-- Round trip: formatting a constructible date with `%d.%m.%Y` and
re-parsing it with `strptime` recovers the same date. -/
theorem strptime_formatDMY (d : Date) (h : dateCtorOk d) :
    strptimeDMY (formatDMY d) = some d := by
  obtain ⟨⟨hy, hm1, hm2, hd1, hd2⟩, hy9⟩ := h
  have hd31 : d.day ≤ 31 := le_trans hd2 (daysInMonth_le _ _)
  rcases d with ⟨dy, dm, dd⟩
  simp only at hy hm1 hm2 hd1 hd2 hy9 hd31
  unfold strptimeDMY formatDMY
  rw [show (String.mk (twoDigits dd ++ ('.' :: (twoDigits dm ++
        ('.' :: fourDigits dy))))).data =
      twoDigits dd ++ ('.' :: (twoDigits dm ++ ('.' :: fourDigits dy)))
    from rfl]
  rw [parseDMY_format dd dm dy hd1 hd31 hm1 hm2 hy9]
  simp only []
  rw [if_pos ⟨⟨hy, hm1, hm2, hd1, hd2⟩, hy9⟩]

/-! ### Dictionary lemmas -/

theorem find?_map_replace (k : String) (v : Record) :
    ∀ d : List (String × Record), d.any (fun p => p.1 == k) = true →
      (d.map (fun p => if p.1 == k then (k, v) else p)).find?
        (fun p => p.1 == k) = some (k, v) := by
  intro d
  induction d with
  | nil => simp
  | cons p ps ih =>
    intro h
    by_cases hp : (p.1 == k) = true
    · simp only [List.map_cons, if_pos hp]
      exact List.find?_cons_of_pos _ (by simp)
    · simp only [List.map_cons, if_neg hp]
      rw [List.find?_cons_of_neg _ (by simp [hp])]
      refine ih ?_
      simp only [List.any_cons, hp, Bool.false_or] at h
      exact h

theorem find?_append_none (f : String × Record → Bool) :
    ∀ (d l : List (String × Record)), d.find? f = none →
      (d ++ l).find? f = l.find? f := by
  intro d
  induction d with
  | nil => intro l _; rfl
  | cons p ps ih =>
    intro l h
    by_cases hf : f p = true
    · rw [List.find?_cons_of_pos _ hf] at h
      simp at h
    · rw [List.find?_cons_of_neg _ (by simp [hf])] at h
      rw [List.cons_append, List.find?_cons_of_neg _ (by simp [hf])]
      exact ih l h

theorem dictGet_dictSet_self (d : List (String × Record)) (k : String)
    (v : Record) : dictGet (dictSet d k v) k = some v := by
  unfold dictSet dictGet
  by_cases h : d.any (fun p => p.1 == k) = true
  · rw [if_pos h, find?_map_replace k v d h]
  · rw [if_neg h]
    have hn : d.find? (fun p => p.1 == k) = none := by
      rw [List.find?_eq_none]
      intro x hx hfx
      exact h (List.any_eq_true.mpr ⟨x, hx, hfx⟩)
    rw [find?_append_none _ d _ hn, List.find?_cons_of_pos _ (by simp)]

theorem dictGet_eq_none_iff (d : List (String × Record)) (k : String) :
    dictGet d k = none ↔ ∀ p ∈ d, p.1 ≠ k := by
  unfold dictGet
  rcases h : d.find? (fun p => p.1 == k) with _ | p <;> rw [h]
  · constructor
    · intro _ p hp he
      have := List.find?_eq_none.mp h p hp
      simp [he] at this
    · intro _; rfl
  · constructor
    · intro hh; simp at hh
    · intro hall
      exfalso
      have hmem := List.mem_of_find?_eq_some h
      have hpk := List.find?_some h
      simp only [beq_iff_eq] at hpk
      exact hall p hmem hpk

/-! ### Scheduler lemmas -/

theorem dateReplaceYear_ok_inv (d : Date) (y : Nat) (b : Date)
    (h : dateReplaceYear d y = Except.ok b) :
    dateCtorOk b ∧ b = ⟨y, d.month, d.day⟩ := by
  unfold dateReplaceYear at h
  by_cases hc : dateCtorOk ⟨y, d.month, d.day⟩
  · rw [if_pos hc] at h
    injection h with h2
    exact ⟨h2 ▸ hc, h2.symm⟩
  · rw [if_neg hc] at h
    simp at h

theorem roll_ok_ctorOk (b0 today b1 : Date) (y2 : Nat)
    (h0 : dateCtorOk b0)
    (h : (if b0.lt today then dateReplaceYear b0 y2 else Except.ok b0) =
      Except.ok b1) : dateCtorOk b1 := by
  by_cases hl : b0.lt today
  · rw [if_pos hl] at h
    exact (dateReplaceYear_ok_inv _ _ _ h).1
  · rw [if_neg hl] at h
    injection h with h2
    rwa [← h2]

theorem upcomingForRecord_ok_some_inv (today : Date) (r : Record) (e : Entry)
    (h : upcomingForRecord today r = Except.ok (some e)) :
    ∃ b1 : Date, dateCtorOk b1 ∧
      e = ⟨r.name.value,
        formatDMY (if 5 ≤ b1.weekday then b1.addDays (7 - b1.weekday)
                   else b1)⟩ := by
  unfold upcomingForRecord at h
  split at h
  · simp at h
  · split at h
    · simp at h
    · split at h
      · simp at h
      · rename_i bd b_date b0 h0
        split at h
        · simp at h
        · rename_i b1 h1
          split at h
          · rename_i hw
            refine ⟨b1, ?_, ?_⟩
            · exact roll_ok_ctorOk b0 today b1 (today.year + 1)
                (dateReplaceYear_ok_inv _ _ _ h0).1 h1
            · injection h with h2
              injection h2 with h3
              exact h3.symm
          · simp at h

theorem upcomingLoop_ok_mem (today : Date) :
    ∀ (rs : List Record) (l : List Entry),
      upcomingLoop today rs = Except.ok l →
      ∀ e : Entry, e ∈ l ↔
        ∃ r, r ∈ rs ∧ upcomingForRecord today r = Except.ok (some e) := by
  intro rs
  induction rs with
  | nil =>
    intro l h e
    unfold upcomingLoop at h
    injection h with h2
    rw [← h2]
    simp
  | cons r rs ih =>
    intro l h e
    unfold upcomingLoop at h
    rcases hr : upcomingForRecord today r with msg | o
    · rw [hr] at h; simp at h
    · rw [hr] at h
      rcases o with _ | e0
      · simp only [] at h
        rw [ih l h e]
        constructor
        · rintro ⟨r2, hr2, he2⟩
          exact ⟨r2, List.mem_cons_of_mem r hr2, he2⟩
        · rintro ⟨r2, hr2, he2⟩
          rcases List.mem_cons.mp hr2 with he | hm
          · rw [he] at he2
            rw [hr] at he2
            simp at he2
          · exact ⟨r2, hm, he2⟩
      · simp only [] at h
        rcases hl : upcomingLoop today rs with msg2 | l2
        · rw [hl] at h; simp at h
        · rw [hl] at h
          injection h with h2
          rw [← h2]
          constructor
          · intro hm
            rcases List.mem_cons.mp hm with he | hm2
            · exact ⟨r, List.mem_cons_self r rs, by rw [hr, he]⟩
            · obtain ⟨r2, hr2, he2⟩ := (ih l2 hl e).mp hm2
              exact ⟨r2, List.mem_cons_of_mem r hr2, he2⟩
          · rintro ⟨r2, hr2, he2⟩
            rcases List.mem_cons.mp hr2 with he | hm2
            · rw [he, hr] at he2
              injection he2 with h3
              injection h3 with h4
              rw [h4]
              exact List.mem_cons_self e l2
            · exact List.mem_cons_of_mem e0
                ((ih l2 hl e).mpr ⟨r2, hm2, he2⟩)

theorem upcomingLoopSt_spec (today : Date) :
    ∀ ps : List (String × Record),
      upcomingLoopSt today ps =
        (upcomingLoop today (ps.map (fun p => p.2)), ps) := by
  intro ps
  induction ps with
  | nil => rfl
  | cons p ps ih =>
    obtain ⟨k, r⟩ := p
    unfold upcomingLoopSt
    rw [List.map_cons]
    unfold upcomingLoop
    rcases hr : upcomingForRecord today r with msg | o
    · simp only []
    · rcases o with _ | e0
      · simp only [ih]
      · simp only [ih]

/-! ### Parser characterization -/

theorem strptimeDMY_some_pattern (s : String) (d : Date)
    (h : strptimeDMY s = some d) : lenientBirthdayPattern s := by
  unfold strptimeDMY at h
  rcases hp : parseDMY s.data with _ | t
  · rw [hp] at h; simp at h
  · rw [hp] at h
    obtain ⟨dd, dm, dy⟩ := t
    simp only [] at h
    by_cases hc : dateCtorOk ⟨dy, dm, dd⟩
    · simp only [parseDMY] at hp
      split at hp
      · rename_i r2 hr1
        split at hp
        · rename_i r4 hr3
          split at hp
          · rename_i hcond
            obtain ⟨c1, c2, c3, c4, c5, c6, c7, c8, c9, c10⟩ := hcond
            injection hp with hp2
            have e1 : natOfDigits (s.data.takeWhile Char.isDigit) = dd := by
              have := congrArg (fun t => t.1) hp2
              simpa using this
            have e2 : natOfDigits (r2.takeWhile Char.isDigit) = dm := by
              have := congrArg (fun t => t.2.1) hp2
              simpa using this
            have e3 : natOfDigits (r4.takeWhile Char.isDigit) = dy := by
              have := congrArg (fun t => t.2.2) hp2
              simpa using this
            have hr4 : r4.takeWhile Char.isDigit = r4 := by
              have hx := List.takeWhile_append_dropWhile Char.isDigit r4
              rw [c10, List.append_nil] at hx
              exact hx
            refine ⟨s.data.takeWhile Char.isDigit, r2.takeWhile Char.isDigit,
              r4.takeWhile Char.isDigit, ?_, ?_, c1, c2, ?_, c5, c6, ?_,
              c9, ?_⟩
            · calc s.data
                  = s.data.takeWhile Char.isDigit ++
                      s.data.dropWhile Char.isDigit :=
                    (List.takeWhile_append_dropWhile Char.isDigit
                      s.data).symm
                _ = s.data.takeWhile Char.isDigit ++ ('.' :: r2) := by
                      rw [hr1]
                _ = s.data.takeWhile Char.isDigit ++
                      ('.' :: (r2.takeWhile Char.isDigit ++
                        r2.dropWhile Char.isDigit)) := by
                      rw [List.takeWhile_append_dropWhile]
                _ = s.data.takeWhile Char.isDigit ++
                      ('.' :: (r2.takeWhile Char.isDigit ++
                        ('.' :: r4))) := by rw [hr3]
                _ = s.data.takeWhile Char.isDigit ++
                      ('.' :: (r2.takeWhile Char.isDigit ++
                        ('.' :: r4.takeWhile Char.isDigit))) := by rw [hr4]
            · exact fun c hcm => mem_takeWhile_digit _ c hcm
            · exact fun c hcm => mem_takeWhile_digit _ c hcm
            · exact fun c hcm => mem_takeWhile_digit _ c hcm
            · rw [e1, e2, e3]
              exact hc
          · simp at hp
        · simp at hp
      · simp at hp
    · rw [if_neg hc] at h
      simp at h

theorem lenient_strptime (s : String) (hp : lenientBirthdayPattern s) :
    ∃ d : Date, strptimeDMY s = some d := by
  obtain ⟨ds, ms, ys, hdata, hdsd, hds1, hds2, hmsd, hms1, hms2, hysd,
    hys4, hctor⟩ := hp
  have hdot : Char.isDigit '.' = false := by decide
  have s1 := takeWhile_append_stop ds '.' (ms ++ ('.' :: ys)) hdsd hdot
  have s2 := takeWhile_append_stop ms '.' ys hmsd hdot
  have s3 := takeWhile_all ys hysd
  have hc2 : (1 ≤ natOfDigits ys ∧ 1 ≤ natOfDigits ms ∧
      natOfDigits ms ≤ 12 ∧ 1 ≤ natOfDigits ds ∧
      natOfDigits ds ≤ daysInMonth (natOfDigits ys) (natOfDigits ms)) ∧
      natOfDigits ys ≤ 9999 := hctor
  have hparse : parseDMY s.data =
      some (natOfDigits ds, natOfDigits ms, natOfDigits ys) := by
    rw [hdata]
    simp only [parseDMY]
    rw [s1.1, s1.2]
    simp only []
    rw [s2.1, s2.2]
    simp only []
    rw [s3.1, s3.2]
    have hcond : 1 ≤ ds.length ∧ ds.length ≤ 2 ∧ 1 ≤ natOfDigits ds ∧
        natOfDigits ds ≤ 31 ∧ 1 ≤ ms.length ∧ ms.length ≤ 2 ∧
        1 ≤ natOfDigits ms ∧ natOfDigits ms ≤ 12 ∧ ys.length = 4 ∧
        ([] : List Char) = [] :=
      ⟨hds1, hds2, hc2.1.2.2.2.1,
        le_trans hc2.1.2.2.2.2 (daysInMonth_le _ _), hms1, hms2,
        hc2.1.2.1, hc2.1.2.2.1, hys4, rfl⟩
    rw [if_pos hcond]
  refine ⟨⟨natOfDigits ys, natOfDigits ms, natOfDigits ds⟩, ?_⟩
  unfold strptimeDMY
  rw [hparse]
  simp only []
  rw [if_pos hctor]

/-! ### Totality of the scheduler under safe birthdays -/

theorem upcomingForRecord_ok_of_safe (today : Date) (r : Record)
    (hsafe : ∀ bd : Birthday, r.birthday = some bd →
      ∃ d, strptimeDMY bd.value = some d ∧
        dateCtorOk ⟨today.year, d.month, d.day⟩ ∧
        dateCtorOk ⟨today.year + 1, d.month, d.day⟩) :
    ∃ o, upcomingForRecord today r = Except.ok o := by
  rcases hb : r.birthday with _ | bd
  · refine ⟨none, ?_⟩
    unfold upcomingForRecord
    rw [hb]
  · obtain ⟨d, hd, hc1, hc2⟩ := hsafe bd hb
    unfold upcomingForRecord
    rw [hb]
    simp only []
    rw [hd]
    simp only []
    have h0 : dateReplaceYear d today.year =
        Except.ok ⟨today.year, d.month, d.day⟩ := by
      unfold dateReplaceYear
      rw [if_pos hc1]
    rw [h0]
    simp only []
    by_cases hl : (⟨today.year, d.month, d.day⟩ : Date).lt today
    · rw [if_pos hl]
      have h1 : dateReplaceYear ⟨today.year, d.month, d.day⟩
          (today.year + 1) =
          Except.ok ⟨today.year + 1, d.month, d.day⟩ := by
        unfold dateReplaceYear
        rw [if_pos hc2]
      rw [h1]
      simp only []
      split
      · exact ⟨_, rfl⟩
      · exact ⟨_, rfl⟩
    · rw [if_neg hl]
      simp only []
      split
      · exact ⟨_, rfl⟩
      · exact ⟨_, rfl⟩

theorem upcomingLoop_ok_of_all (today : Date) :
    ∀ rs : List Record,
      (∀ r ∈ rs, ∃ o, upcomingForRecord today r = Except.ok o) →
      ∃ l, upcomingLoop today rs = Except.ok l := by
  intro rs
  induction rs with
  | nil => intro _; exact ⟨[], rfl⟩
  | cons r rs ih =>
    intro h
    obtain ⟨o, ho⟩ := h r (List.mem_cons_self r rs)
    obtain ⟨l, hl⟩ := ih (fun x hx => h x (List.mem_cons_of_mem r hx))
    unfold upcomingLoop
    rw [ho]
    rcases o with _ | e0
    · exact ⟨l, hl⟩
    · simp only []
      rw [hl]
      exact ⟨e0 :: l, rfl⟩

/-! ### Field construction lemmas -/

theorem phone_init_cases (s : String) :
    Phone.init s =
      if s.length = 10 ∧ (∀ c ∈ s.data, c.isDigit = true) then
        Except.ok ⟨s⟩
      else Except.error "Phone number must be 10 digits." := by
  have hlen : s.length = s.data.length := rfl
  have hiff : ((!s.data.isEmpty && s.data.all Char.isDigit &&
      s.length == 10) = true) ↔
      (s.length = 10 ∧ ∀ c ∈ s.data, c.isDigit = true) := by
    constructor
    · intro hb
      simp only [Bool.and_eq_true, Bool.not_eq_true', List.all_eq_true,
        beq_iff_eq] at hb
      exact ⟨hb.2, hb.1.2⟩
    · rintro ⟨h1, h2⟩
      simp only [Bool.and_eq_true, Bool.not_eq_true', List.all_eq_true,
        beq_iff_eq]
      refine ⟨⟨?_, h2⟩, h1⟩
      cases hd : s.data with
      | nil =>
        exfalso
        rw [hlen, hd] at h1
        simp at h1
      | cons c cs => rfl
  unfold Phone.init strIsdigit
  by_cases h : s.length = 10 ∧ (∀ c ∈ s.data, c.isDigit = true)
  · rw [if_pos (hiff.mpr h), if_pos h]
  · rw [if_neg (fun hc => h (hiff.mp hc)), if_neg h]

/-! ## The claims -/

/-- C1: The scheduler computes this year's occurrence of each birthday by
replacing the birthday's year with today's year; an occurrence strictly
before today is rolled forward one year; a record is included in the
result exactly when the day delta of the (rolled) occurrence from today
satisfies 0 ≤ delta < 7 (a birthday falling on today itself is included);
records without a Birthday are never included; and on an empty store the
result is the empty sequence, not an error. Inclusion in the result is
characterized through the loop body `upcomingForRecord` by the third
conjunct. -/
theorem scheduler_window_spec :
    (∀ today : Date,
      (AddressBook.mk []).get_upcoming_birthdays today = Except.ok []) ∧
    (∀ (today : Date) (r : Record), r.birthday = none →
      upcomingForRecord today r = Except.ok none) ∧
    (∀ (b : AddressBook) (today : Date) (l : List Entry),
      b.get_upcoming_birthdays today = Except.ok l →
      ∀ e : Entry, e ∈ l ↔
        ∃ p, p ∈ b.data ∧
          upcomingForRecord today p.2 = Except.ok (some e)) ∧
    (∀ (today : Date) (r : Record) (bd : Birthday) (b_date b1 b2 : Date),
      r.birthday = some bd →
      strptimeDMY bd.value = some b_date →
      dateReplaceYear b_date today.year = Except.ok b1 →
      (if b1.lt today then dateReplaceYear b1 (today.year + 1)
       else Except.ok b1) = Except.ok b2 →
      ((∃ e, upcomingForRecord today r = Except.ok (some e)) ↔
        (0 ≤ (b2.toOrdinal : Int) - (today.toOrdinal : Int) ∧
          (b2.toOrdinal : Int) - (today.toOrdinal : Int) < 7))) := by
  refine ⟨?_, ?_, ?_, ?_⟩
  · intro today; rfl
  · intro today r h
    unfold upcomingForRecord
    rw [h]
  · intro b today l hok e
    unfold AddressBook.get_upcoming_birthdays at hok
    rw [upcomingLoop_ok_mem today _ l hok e]
    constructor
    · rintro ⟨r, hr, he⟩
      obtain ⟨p, hp, hpe⟩ := List.mem_map.mp hr
      exact ⟨p, hp, by rw [hpe]; exact he⟩
    · rintro ⟨p, hp, he⟩
      exact ⟨p.2, List.mem_map.mpr ⟨p, hp, rfl⟩, he⟩
  · intro today r bd b_date b1 b2 hb hp h1 h2
    unfold upcomingForRecord
    rw [hb]
    simp only []
    rw [hp]
    simp only []
    rw [h1]
    simp only []
    rw [h2]
    simp only []
    by_cases hw : (0 ≤ (b2.toOrdinal : Int) - (today.toOrdinal : Int) ∧
        (b2.toOrdinal : Int) - (today.toOrdinal : Int) < 7)
    · rw [if_pos hw]
      exact iff_of_true ⟨_, rfl⟩ hw
    · rw [if_neg hw]
      refine iff_of_false ?_ hw
      rintro ⟨e, he⟩
      simp at he

/-- C1 witness: today 10.06.2024, Alice born 10.06.1990 — occurrence is
today itself (delta 0), so she is included. -/
theorem scheduler_window_spec_witness :
    ∃ e, upcomingForRecord ⟨2024, 6, 10⟩
      ⟨⟨"Alice"⟩, [], some ⟨"10.06.1990"⟩⟩ = Except.ok (some e) :=
  (scheduler_window_spec.2.2.2 ⟨2024, 6, 10⟩
    ⟨⟨"Alice"⟩, [], some ⟨"10.06.1990"⟩⟩ ⟨"10.06.1990"⟩ ⟨1990, 6, 10⟩
    ⟨2024, 6, 10⟩ ⟨2024, 6, 10⟩ rfl (by decide) (by decide)
    (by decide)).mpr (by decide)

/-- C2: For an included record, a Saturday (weekday 5) or Sunday
(weekday 6) occurrence is shifted forward by 7 − weekday days (landing
on the following Monday, weekday 0), otherwise the occurrence itself is
used; the inclusion test uses the pre-shift occurrence; the emitted entry
carries the record's name and the date formatted as DD.MM.YYYY. -/
theorem weekend_shift_spec (today : Date) (r : Record) (bd : Birthday)
    (b_date b1 b2 : Date)
    (hb : r.birthday = some bd)
    (hp : strptimeDMY bd.value = some b_date)
    (h1 : dateReplaceYear b_date today.year = Except.ok b1)
    (h2 : (if b1.lt today then dateReplaceYear b1 (today.year + 1)
           else Except.ok b1) = Except.ok b2)
    (hw : 0 ≤ (b2.toOrdinal : Int) - (today.toOrdinal : Int) ∧
      (b2.toOrdinal : Int) - (today.toOrdinal : Int) < 7) :
    upcomingForRecord today r = Except.ok (some
      ⟨r.name.value, formatDMY (if 5 ≤ b2.weekday
        then b2.addDays (7 - b2.weekday) else b2)⟩) ∧
    (5 ≤ b2.weekday → (b2.addDays (7 - b2.weekday)).weekday = 0) ∧
    (b2.weekday < 5 →
      (if 5 ≤ b2.weekday then b2.addDays (7 - b2.weekday) else b2)
        = b2) := by
  refine ⟨?_, ?_, ?_⟩
  · unfold upcomingForRecord
    rw [hb]
    simp only []
    rw [hp]
    simp only []
    rw [h1]
    simp only []
    rw [h2]
    simp only []
    rw [if_pos hw]
  · intro hsat
    have hctor : dateCtorOk b2 :=
      roll_ok_ctorOk b1 today b2 (today.year + 1)
        (dateReplaceYear_ok_inv _ _ _ h1).1 h2
    have hwk := weekday_addDays b2 hctor.1 (7 - b2.weekday)
    have h7 := weekday_lt_seven b2
    rw [hwk]
    omega
  · intro hlt
    rw [if_neg (by omega)]

/-- C2 witness: today 10.06.2024 (Monday), Bob born 15.06.1985 — the
occurrence 15.06.2024 is a Saturday, delta 5 is inside the window, and
the emitted congratulation date is Monday 17.06.2024. -/
theorem weekend_shift_spec_witness :
    upcomingForRecord ⟨2024, 6, 10⟩ ⟨⟨"Bob"⟩, [], some ⟨"15.06.1985"⟩⟩ =
      Except.ok (some ⟨"Bob", "17.06.2024"⟩) := by
  have h := weekend_shift_spec ⟨2024, 6, 10⟩
    ⟨⟨"Bob"⟩, [], some ⟨"15.06.1985"⟩⟩ ⟨"15.06.1985"⟩ ⟨1985, 6, 15⟩
    ⟨2024, 6, 15⟩ ⟨2024, 6, 15⟩ rfl (by decide) (by decide) (by decide)
    (by decide)
  rw [h.1]
  decide

/-- C3: Phone construction succeeds, storing exactly the input string,
iff the input is a string of exactly 10 decimal digits; otherwise it
fails with the invalid-format error. -/
theorem phone_validation_spec (s : String) :
    Phone.init s =
      if s.length = 10 ∧ (∀ c ∈ s.data, c.isDigit = true) then
        Except.ok ⟨s⟩
      else Except.error "Phone number must be 10 digits." :=
  phone_init_cases s

/-- C4 counterexample: the claim requires a two-digit day and a two-digit
month, but the source's `strptime` accepts the single-digit form
"1.1.2000", which does not match the DD.MM.YYYY pattern. -/
theorem birthday_pattern_counterexample :
    Birthday.init "1.1.2000" = Except.ok ⟨"1.1.2000"⟩ ∧
    specBirthdayPattern "1.1.2000" = false := by
  refine ⟨?_, ?_⟩
  · decide
  · decide

/-- C4 amended: Birthday construction succeeds iff the string consists of
a one-or-two-digit day, a dot, a one-or-two-digit month, a dot and an
exactly four-digit year, denoting a real calendar date (day within the
month, month 1..12, year 1..9999); otherwise it fails with the
invalid-format error. The stored value is exactly the input string, which
coincides with the canonical DD.MM.YYYY form whenever the input was
zero-padded. -/
theorem birthday_validation_amended (s : String) :
    (Birthday.init s = Except.ok ⟨s⟩ ∨
      Birthday.init s =
        Except.error "Invalid date format. Use DD.MM.YYYY") ∧
    (Birthday.init s = Except.ok ⟨s⟩ ↔ lenientBirthdayPattern s) := by
  constructor
  · unfold Birthday.init
    rcases h : strptimeDMY s with _ | d
    · right
      rfl
    · left
      rfl
  · constructor
    · intro h
      unfold Birthday.init at h
      rcases hs : strptimeDMY s with _ | d
      · rw [hs] at h
        simp at h
      · exact strptimeDMY_some_pattern s d hs
    · intro hpat
      obtain ⟨d, hd⟩ := lenient_strptime s hpat
      unfold Birthday.init
      rw [hd]

/-- C5 counterexample: "29.02.2024" is a valid Birthday (2024 is a leap
year), yet with today = 01.01.2025 (2025 is not a leap year) the
scheduler raises: `replace(year=2025)` fails for 29 February. -/
theorem feb29_error_counterexample :
    Birthday.init "29.02.2024" = Except.ok ⟨"29.02.2024"⟩ ∧
    (AddressBook.mk
        [("A", ⟨⟨"A"⟩, [], some ⟨"29.02.2024"⟩⟩)]).get_upcoming_birthdays
      ⟨2025, 1, 1⟩ = Except.error "day is out of range for month" := by
  refine ⟨?_, ?_⟩
  · decide
  · decide

/-- C5 amended: the upcoming-birthday computation is error-free provided
every stored birthday parses and its day-month pair forms a
constructible date both in today's year and in the next one (in
particular, no 29 February birthday when either of those years is
non-leap or out of the 1..9999 range); with a 29 February birthday and a
non-leap target year the computation instead raises a date-range
error. -/
theorem scheduler_total_amended (b : AddressBook) (today : Date)
    (hsafe : ∀ p ∈ b.data, ∀ bd : Birthday, p.2.birthday = some bd →
      ∃ d, strptimeDMY bd.value = some d ∧
        dateCtorOk ⟨today.year, d.month, d.day⟩ ∧
        dateCtorOk ⟨today.year + 1, d.month, d.day⟩) :
    ∃ l, b.get_upcoming_birthdays today = Except.ok l := by
  unfold AddressBook.get_upcoming_birthdays
  refine upcomingLoop_ok_of_all today _ ?_
  intro r hr
  obtain ⟨p, hpmem, hpe⟩ := List.mem_map.mp hr
  refine upcomingForRecord_ok_of_safe today r ?_
  intro bd hbd
  refine hsafe p hpmem bd ?_
  rw [hpe]
  exact hbd

/-- C5 witness: a store whose single birthday 10.06.1990 is
constructible in 2024 and 2025, with today 10.06.2024. -/
theorem scheduler_total_amended_witness :
    ∃ l, (AddressBook.mk
        [("Alice", ⟨⟨"Alice"⟩, [], some ⟨"10.06.1990"⟩⟩)]
      ).get_upcoming_birthdays ⟨2024, 6, 10⟩ = Except.ok l := by
  refine scheduler_total_amended _ _ ?_
  intro p hp bd hbd
  have hpe : p = ("Alice",
      (⟨⟨"Alice"⟩, [], some ⟨"10.06.1990"⟩⟩ : Record)) := by
    simpa using hp
  rw [hpe] at hbd
  have hbde : bd = ⟨"10.06.1990"⟩ := by
    injection hbd with h2
    exact h2.symm
  rw [hbde]
  exact ⟨⟨1990, 6, 10⟩, by decide, by decide, by decide⟩

/-- C6 counterexample: the claim says creation fails with InvalidFormat
on the empty name, but `Name` performs no validation: `Record("")`
succeeds, producing a record whose name is the empty string. There is no
failure path in `Record.__init__` at all. -/
theorem empty_name_counterexample :
    Record.create "" = ⟨⟨""⟩, [], none⟩ := rfl

/-- C6 amended: Record creation never fails: for every string, including
the empty one, it succeeds and produces a record holding that Name, an
empty phone sequence and no birthday. -/
theorem record_create_amended (name : String) :
    (Record.create name).name.value = name ∧
    (Record.create name).phones = [] ∧
    (Record.create name).birthday = none :=
  ⟨rfl, rfl, rfl⟩

/-- C7: adding a record and then looking its name up returns exactly
that record; adding a second record under any name makes that second
record the one retrieved under its name (so a same-name add replaces the
first, and only the latest is retrievable, since `find` is a function);
`find` on a name matching no stored key returns an absent result — it is
total, hence never raises. -/
theorem store_add_find_spec (b : AddressBook) (r r2 : Record)
    (n : String) :
    ((b.add_record r).find r.name.value = some r) ∧
    (((b.add_record r).add_record r2).find r2.name.value = some r2) ∧
    (b.find n = none ↔ ∀ p ∈ b.data, p.1 ≠ n) := by
  refine ⟨?_, ?_, ?_⟩
  · unfold AddressBook.add_record AddressBook.find
    exact dictGet_dictSet_self _ _ _
  · unfold AddressBook.add_record AddressBook.find
    exact dictGet_dictSet_self _ _ _
  · unfold AddressBook.find
    exact dictGet_eq_none_iff _ _

/-- C8: `add_phone` appends a validated Phone holding exactly the input
string to the end of the phone sequence when the input is 10 decimal
digits, and otherwise fails with the invalid-format error; in the
failure case the `Phone` constructor raises before `append` runs, so
the record (name, phone sequence, birthday) is left untouched — in this
embedding the failing call returns only the error and no new record. -/
theorem add_phone_spec (r : Record) (s : String) :
    Record.add_phone r s =
      if s.length = 10 ∧ (∀ c ∈ s.data, c.isDigit = true) then
        Except.ok ⟨r.name, r.phones ++ [⟨s⟩], r.birthday⟩
      else Except.error "Phone number must be 10 digits." := by
  unfold Record.add_phone
  rw [phone_init_cases s]
  by_cases h : s.length = 10 ∧ (∀ c ∈ s.data, c.isDigit = true)
  · rw [if_pos h, if_pos h]
  · rw [if_neg h, if_neg h]

/-- C9: the scheduler is a pure query: run with explicit state threading
it returns exactly the pure result together with the untouched store —
the name-to-record mapping and every record in it are identical before
and after. -/
theorem scheduler_frame_spec (b : AddressBook) (today : Date) :
    b.get_upcoming_birthdays_st today =
      (b.get_upcoming_birthdays today, b) := by
  obtain ⟨d⟩ := b
  unfold AddressBook.get_upcoming_birthdays_st
    AddressBook.get_upcoming_birthdays
  rw [upcomingLoopSt_spec]

/-- C10: every entry the scheduler emits carries a congratulation date
that parses back (under the very DD.MM.YYYY format it was printed with)
to a date whose weekday is Monday..Friday — never Saturday or Sunday. -/
theorem entries_weekday_spec (b : AddressBook) (today : Date)
    (l : List Entry) (e : Entry)
    (hok : b.get_upcoming_birthdays today = Except.ok l) (hmem : e ∈ l) :
    ∃ d : Date, strptimeDMY e.congratulation_date = some d ∧
      d.weekday < 5 := by
  unfold AddressBook.get_upcoming_birthdays at hok
  obtain ⟨r, hr, he⟩ := (upcomingLoop_ok_mem today _ l hok e).mp hmem
  obtain ⟨b1, hctor, hee⟩ := upcomingForRecord_ok_some_inv today r e he
  by_cases hsat : 5 ≤ b1.weekday
  · rw [if_pos hsat] at hee
    have hvalid : (b1.addDays (7 - b1.weekday)).calendarValid :=
      calendarValid_addDays b1 hctor.1 _
    have hyear : (b1.addDays (7 - b1.weekday)).year ≤ 9999 :=
      shift_year_le b1 hctor.1 hctor.2 hsat
    have hwk := weekday_addDays b1 hctor.1 (7 - b1.weekday)
    have h7 := weekday_lt_seven b1
    refine ⟨b1.addDays (7 - b1.weekday), ?_, ?_⟩
    · rw [hee]
      exact strptime_formatDMY _ ⟨hvalid, hyear⟩
    · rw [hwk]
      omega
  · rw [if_neg hsat] at hee
    refine ⟨b1, ?_, by omega⟩
    rw [hee]
    exact strptime_formatDMY _ hctor

/-- C10 witness: the Bob scenario emits 17.06.2024, which parses back to
a Monday. -/
theorem entries_weekday_spec_witness :
    ∃ d : Date, strptimeDMY "17.06.2024" = some d ∧ d.weekday < 5 :=
  entries_weekday_spec
    (AddressBook.mk [("Bob", ⟨⟨"Bob"⟩, [], some ⟨"15.06.1985"⟩⟩)])
    ⟨2024, 6, 10⟩ [⟨"Bob", "17.06.2024"⟩] ⟨"Bob", "17.06.2024"⟩
    (by decide) (by decide)

end ContactBook

